import Mathlib

/-!
Verification of the habit-tracking backend (nlw-habits-server).

This file gives a shallow embedding of the core routes of
`src/routes/habitsRoutes.ts` (POST /day, POST /habits/new,
PATCH /habits/:id/toggle, POST /summary) over an explicit relational
state, and proves/refutes the frozen claims about them.

Conventions of the embedding:
* Timestamps are integers (milliseconds since the Unix epoch), exactly as
  Prisma stores `DateTime` columns in SQLite and as the raw summary query
  reads them (`D.date/1000.0, unixepoch`).
* The dayjs calls `tz(t).startOf(day)` and `.get(day)` are modelled for a
  fixed-offset reference timezone (see `tzOffsetMs`).
* The Prisma treatment of `undefined` filter values (`userId: user?.id`
  when the user lookup failed) is modelled faithfully: an `undefined`
  filter is dropped from the query, it does not filter anything.
* Tables are lists of records; `findUnique` is `List.find?` (the unique
  constraints of the schema make the first match the only match on
  well-formed states), `findMany`/`WHERE` is `List.filter`, a SQL inner
  join is a `flatMap` producing the list of joined row pairs.
* Fallible route code (zod validation) returns `Except`.
-/

/-- Milliseconds in one day, the unit of the startOf(day) truncation. -/
def msPerDay : Int := 86400000

/-- Modelled from the spec: the project configures dayjs with a fixed
"reference timezone" in `src/lib/dayjs` (registered by `server.ts` via
an import of lib/dayjs but not present under `src/`).  The spec only says
the timezone is fixed; we model it as the deployment timezone UTC-3
(America/Sao_Paulo, no DST), i.e. an offset of -10800000 ms added to UTC
to obtain local time. -/
def tzOffsetMs : Int := -10800000

/-- Model of `dayjs.tz(t).startOf(day).toDate()`: truncate a UTC millisecond
timestamp to the most recent local midnight of the reference timezone. -/
def dayStart (t : Int) : Int :=
  (t + tzOffsetMs) / msPerDay * msPerDay - tzOffsetMs

/-- Model of `dayjs.tz(t).get(day)`: weekday index 0-6 (Sunday=0) of the instant
`t` in the reference timezone.  1970-01-01 (epoch day 0) was a Thursday. -/
def weekDayOf (t : Int) : Int :=
  ((t + tzOffsetMs) / msPerDay + 4) % 7

/-- Model of `cast(strftime(percent-w, t/1000.0, unixepoch) as int)`: the weekday the
raw summary SQL computes, i.e. the UTC weekday of the instant `t`. -/
def sqlWeekDay (t : Int) : Int :=
  (t / msPerDay + 4) % 7

/-- A timestamp that is already a local-midnight timestamp. -/
def isDayStart (t : Int) : Prop := dayStart t = t

instance isDayStartDecidable (t : Int) : Decidable (isDayStart t) :=
  inferInstanceAs (Decidable (dayStart t = t))

structure User where
  id : String
  googleId : String
  name : String
  email : String
  avatarUrl : String
  deriving DecidableEq

structure Habit where
  id : String
  title : String
  created_at : Int
  userId : Option String
  deriving DecidableEq

structure HabitWeekDay where
  habit_id : String
  week_day : Int
  deriving DecidableEq

structure Day where
  id : String
  date : Int
  deriving DecidableEq

structure DayHabit where
  id : String
  day_id : String
  habit_id : String
  deriving DecidableEq

/-- The relational state reachable through `prisma`. `ctr` feeds the
generator of fresh primary keys (the Prisma cuid()). -/
structure DB where
  users : List User
  habits : List Habit
  habitWeekDays : List HabitWeekDay
  days : List Day
  dayHabits : List DayHabit
  ctr : Nat
  deriving DecidableEq

/-- the query prisma.user.findUnique on the unique email column. -/
def findUserByEmail (db : DB) (email : String) : Option User :=
  db.users.find? (fun u => decide (u.email = email))

/-- Prisma relation filter `weekDays: { some: { week_day: w } }` on a habit. -/
def habitHasWeekDay (db : DB) (habitId : String) (w : Int) : Bool :=
  db.habitWeekDays.any (fun r => decide (r.habit_id = habitId ∧ r.week_day = w))

structure DayView where
  possibleHabits : List Habit
  completedHabits : List String
  deriving DecidableEq

/-- POST /day.  `userEmail` comes from the body, `date` from the query.
Note the Prisma `undefined` semantics: when the email resolves to no user,
`userId: user?.id` is `undefined` and the owner condition is dropped from
both queries (`match user with | none => true`). -/
def getDayView (db : DB) (userEmail : String) (date : Int) : DayView :=
  let parsedDate := dayStart date
  let weekDay := weekDayOf parsedDate
  let user := findUserByEmail db userEmail
  let possibleHabits := db.habits.filter (fun h =>
    decide (h.created_at ≤ date) && habitHasWeekDay db h.id weekDay &&
      match user with
      | some u => decide (h.userId = some u.id)
      | none => true)
  let day := db.days.find? (fun d => decide (d.date = parsedDate))
  let completedHabits :=
    match day with
    | none => []
    | some d =>
      (db.dayHabits.filter (fun dh =>
        decide (dh.day_id = d.id) &&
          match user with
          | some u => db.habits.any (fun h =>
              decide (h.id = dh.habit_id ∧ h.userId = some u.id))
          | none => true)).map (fun dh => dh.habit_id)
  { possibleHabits := possibleHabits, completedHabits := completedHabits }

/-- Body of PATCH /habits/:id/toggle after the Day row has been resolved:
`findUnique` on the `(day_id, habit_id)` key, then delete-by-id or create.
`fdh` is the fresh id used if a DayHabit row is created. -/
def toggleCore (db : DB) (day : Day) (id : String) (fdh : String) : DB :=
  match db.dayHabits.find? (fun dh =>
      decide (dh.day_id = day.id ∧ dh.habit_id = id)) with
  | some dayHabit =>
    { db with dayHabits := db.dayHabits.filter (fun x => decide (x.id ≠ dayHabit.id)) }
  | none =>
    { db with dayHabits := db.dayHabits ++ [{ id := fdh, day_id := day.id, habit_id := id }] }

/-- PATCH /habits/:id/toggle (after validation): find or create the current
Day row, then flip the (day, habit) completion record.  `now` is the
server clock; `fd` and `fdh` are the fresh ids used for a created Day or
DayHabit row. -/
def toggleHabit (db : DB) (id : String) (now : Int) (fd fdh : String) : DB :=
  let today := dayStart now
  match db.days.find? (fun d => decide (d.date = today)) with
  | some day => toggleCore db day id fdh
  | none =>
    let day : Day := { id := fd, date := today }
    toggleCore { db with days := db.days ++ [day] } day id fdh

/-- One character of the 8-4-4-4-12 UUID shape. -/
def isHexDigit (c : Char) : Bool :=
  decide (('0' ≤ c ∧ c ≤ '9') ∨ ('a' ≤ c ∧ c ≤ 'f') ∨ ('A' ≤ c ∧ c ≤ 'F'))

/-- `z.string().uuid()`: 36 characters, hyphens at positions 8, 13, 18
and 23, hexadecimal digits elsewhere. -/
def isUuid (s : String) : Bool :=
  decide (s.data.length = 36) &&
  s.data.enum.all (fun ic =>
    if ic.1 = 8 ∨ ic.1 = 13 ∨ ic.1 = 18 ∨ ic.1 = 23 then decide (ic.2 = '-')
    else isHexDigit ic.2)

/-- PATCH /habits/:id/toggle including the zod params validation: a
non-UUID id fails `toggleHabitParams.parse` before any datastore access. -/
def toggleRoute (db : DB) (id : String) (now : Int) (fd fdh : String) :
    Except String DB :=
  if isUuid id then Except.ok (toggleHabit db id now fd fdh)
  else Except.error "validation: id must be a uuid"

/-- `z.array(z.number().min(0).max(6))` on the weekDays body field
(numbers restricted to the integers, the type of the `week_day` column):
every element must lie in [0,6]; nothing else is checked. -/
def validWeekDays (weekDays : List Int) : Bool :=
  weekDays.all (fun w => decide (0 ≤ w ∧ w ≤ 6))

/-- POST /habits/new: validate the body, stamp `created_at` with the current
local midnight, resolve the owner by email (a failed lookup yields an
ownerless habit), then create the habit together with one HabitWeekDays row
per listed weekday.  The schema (not under src/; modelled from the spec
weekDays-uniqueness invariant of the data model) carries a unique
(habit_id, week_day) constraint on habit_week_days, so the nested create
for a list with a duplicated weekday fails at the datastore with a
constraint violation and stores nothing.  `fh` is the fresh habit id. -/
def createHabit (db : DB) (title : String) (weekDays : List Int)
    (email : String) (now : Int) (fh : String) : Except String DB :=
  if validWeekDays weekDays then
    let today := dayStart now
    let user := findUserByEmail db email
    if weekDays.Nodup then
      Except.ok { db with
        habits := db.habits ++
          [{ id := fh, title := title, created_at := today,
             userId := user.map (fun u => u.id) }],
        habitWeekDays := db.habitWeekDays ++
          weekDays.map (fun w => { habit_id := fh, week_day := w }) }
    else Except.error "constraint: unique (habit_id, week_day) violated"
  else Except.error "validation: weekDays out of range"

structure SummaryRow where
  id : String
  date : Int
  completed : Nat
  amount : Nat
  deriving DecidableEq

/-- `FROM day_habits DH JOIN habits H ON H.id = DH.habit_id`. -/
def dhJoin (db : DB) : List (DayHabit × Habit) :=
  db.dayHabits.flatMap (fun dh =>
    (db.habits.filter (fun h => decide (h.id = dh.habit_id))).map (fun h => (dh, h)))

/-- `FROM habit_week_days HWD JOIN habits H ON H.id = HWD.habit_id`. -/
def hwdJoin (db : DB) : List (HabitWeekDay × Habit) :=
  db.habitWeekDays.flatMap (fun r =>
    (db.habits.filter (fun h => decide (h.id = r.habit_id))).map (fun h => (r, h)))

/-- The `completed` subquery of POST /summary for day `d` and user `uid`. -/
def summaryCompleted (db : DB) (uid : String) (d : Day) : Nat :=
  ((dhJoin db).filter (fun p =>
    decide (p.1.day_id = d.id ∧ p.2.userId = some uid))).length

/-- The `amount` subquery of POST /summary for day `d` and user `uid`. -/
def summaryAmount (db : DB) (uid : String) (d : Day) : Nat :=
  ((hwdJoin db).filter (fun p =>
    decide (p.1.week_day = sqlWeekDay d.date ∧ p.2.created_at ≤ d.date ∧
            p.2.userId = some uid))).length

/-- The `WHERE EXISTS (...)` clause of POST /summary. -/
def dayHasUserCompletion (db : DB) (uid : String) (d : Day) : Bool :=
  !((dhJoin db).filter (fun p =>
    decide (p.1.day_id = d.id ∧ p.2.userId = some uid))).isEmpty

/-- POST /summary for the resolved user id `uid`: one row per Day with at
least one of the user's completions, with both per-day counts. -/
def getSummary (db : DB) (uid : String) : List SummaryRow :=
  (db.days.filter (fun d => dayHasUserCompletion db uid d)).map (fun d =>
    { id := d.id, date := d.date,
      completed := summaryCompleted db uid d,
      amount := summaryAmount db uid d })

/-- The state-changing operations of the HTTP surface. -/
inductive Op where
  | toggle (id : String) (now : Int)
  | createHabit (title : String) (weekDays : List Int) (email : String) (now : Int)
  | addUser (googleId : String) (name : String) (email : String) (avatarUrl : String)
  deriving DecidableEq

/-- Fresh primary keys generated by the datastore (the Prisma cuid()). -/
def genId (n : Nat) : String := "g" ++ toString n

/-- One state transition of the system.  `Op.addUser` is POST /users:
find-by-googleId or create (an insert that would violate the unique email
constraint aborts without changing the state). -/
def stepOp (db : DB) : Op → DB
  | Op.toggle id now =>
    let db' := toggleHabit db id now (genId db.ctr) (genId (db.ctr + 1))
    { db' with ctr := db.ctr + 2 }
  | Op.createHabit title weekDays email now =>
    match createHabit db title weekDays email now (genId db.ctr) with
    | Except.ok db' => { db' with ctr := db.ctr + 1 }
    | Except.error _ => db
  | Op.addUser googleId name email avatarUrl =>
    match db.users.find? (fun u => decide (u.googleId = googleId)) with
    | some _ => db
    | none =>
      if db.users.any (fun u => decide (u.email = email)) then db
      else { db with
        users := db.users ++
          [{ id := genId db.ctr, googleId := googleId, name := name,
             email := email, avatarUrl := avatarUrl }],
        ctr := db.ctr + 1 }

/-- The empty datastore. -/
def initDB : DB :=
  { users := [], habits := [], habitWeekDays := [], days := [], dayHabits := [], ctr := 0 }

/-- The state after a sequence of operations from the empty datastore. -/
def runOps (ops : List Op) : DB := ops.foldl stepOp initDB

/-- Whether the ledger currently records habit `id` as completed on the
day containing the instant `now` (observable through GET /day). -/
def completedToday (db : DB) (id : String) (now : Int) : Bool :=
  match db.days.find? (fun d => decide (d.date = dayStart now)) with
  | none => false
  | some d => db.dayHabits.any (fun dh =>
      decide (dh.day_id = d.id ∧ dh.habit_id = id))

/-- A state with one ownerless habit and no user record at all: used to
observe getDayView when the email resolves to no user. -/
def ghostDB : DB :=
  { users := [],
    habits := [{ id := "h1", title := "Run", created_at := 0, userId := none }],
    habitWeekDays := [{ habit_id := "h1", week_day := 3 }],
    days := [], dayHabits := [], ctr := 0 }

/-- A small well-formed state: one user, one habit scheduled on the
weekday of the one recorded day, one completion. -/
def okDB : DB :=
  { users := [{ id := "u1", googleId := "g1", name := "Alice", email := "alice@x",
                avatarUrl := "a" }],
    habits := [{ id := "h1", title := "Run", created_at := -75600000, userId := some "u1" }],
    habitWeekDays := [{ habit_id := "h1", week_day := 3 }],
    days := [{ id := "d1", date := -75600000 }],
    dayHabits := [{ id := "dh1", day_id := "d1", habit_id := "h1" }],
    ctr := 0 }

example : dayStart 0 = -75600000 := by decide
example : weekDayOf 0 = 3 := by decide
example : sqlWeekDay (-75600000) = 3 ∧ weekDayOf (-75600000) = 3 := by decide
example : isUuid "a3b8c9d0-1234-4abc-8def-0123456789ab" = true := by decide
example : isUuid "not-a-uuid" = false := by decide

/-- Which Op creates (or re-targets) the Day row of date `t`. -/
def opTogglesDate (t : Int) : Op → Prop
  | Op.toggle _ now => dayStart now = t
  | _ => False

/-! ### Arithmetic facts about the time model -/

theorem dayStart_le (t : Int) : dayStart t ≤ t := by
  unfold dayStart msPerDay tzOffsetMs
  omega

theorem dayStart_mono {s t : Int} (h : s ≤ t) : dayStart s ≤ dayStart t := by
  unfold dayStart msPerDay tzOffsetMs
  omega

theorem isDayStart_dayStart (t : Int) : isDayStart (dayStart t) := by
  unfold isDayStart dayStart msPerDay tzOffsetMs
  omega

theorem weekDayOf_dayStart (t : Int) : weekDayOf (dayStart t) = weekDayOf t := by
  unfold weekDayOf dayStart msPerDay tzOffsetMs
  omega

theorem sqlWeekDay_eq_weekDayOf {t : Int} (h : isDayStart t) : sqlWeekDay t = weekDayOf t := by
  unfold isDayStart dayStart msPerDay tzOffsetMs at h
  unfold sqlWeekDay weekDayOf msPerDay tzOffsetMs
  omega

theorem le_dayStart_iff {c t : Int} (h : isDayStart c) : c ≤ t ↔ c ≤ dayStart t := by
  unfold isDayStart dayStart msPerDay tzOffsetMs at *
  omega

theorem weekDayOf_range (t : Int) : 0 ≤ weekDayOf t ∧ weekDayOf t ≤ 6 := by
  unfold weekDayOf msPerDay tzOffsetMs
  omega

/-! ### Generic list lemmas used by the claim proofs -/

theorem any_congr {α : Type} {l : List α} {p q : α → Bool}
    (h : ∀ x ∈ l, p x = q x) : l.any p = l.any q := by
  induction l with
  | nil => rfl
  | cons a l ih =>
    simp only [List.any_cons, h a (List.mem_cons_self a l),
      ih (fun x hx => h x (List.mem_cons_of_mem a hx))]

theorem bool_and_any {α : Type} (a : Bool) (l : List α) (p : α → Bool) :
    l.any (fun x => a && p x) = (a && l.any p) := by
  cases a <;> simp

theorem countP_or_le {α : Type} (l : List α) (p q : α → Bool) :
    l.countP (fun x => p x || q x) ≤ l.countP p + l.countP q := by
  induction l with
  | nil => simp
  | cons a l ih =>
    simp only [List.countP_cons]
    cases hp : p a <;> cases hq : q a <;> simp <;> omega

theorem countP_or_disjoint {α : Type} (l : List α) (p q : α → Bool)
    (h : ∀ x ∈ l, ¬(p x = true ∧ q x = true)) :
    l.countP (fun x => p x || q x) = l.countP p + l.countP q := by
  induction l with
  | nil => simp
  | cons a l ih =>
    have ha := h a (List.mem_cons_self a l)
    have ih' := ih (fun x hx => h x (List.mem_cons_of_mem a hx))
    simp only [List.countP_cons]
    cases hp : p a <;> cases hq : q a <;> simp_all <;> omega

theorem countP_key_unique (l : List Habit) (k : String) (X : Habit → Bool)
    (hids : (l.map Habit.id).Nodup) :
    l.countP (fun hb => decide (hb.id = k) && X hb) =
      if l.any (fun hb => decide (hb.id = k) && X hb) then 1 else 0 := by
  induction l with
  | nil => simp
  | cons a l ih =>
    simp only [List.map_cons, List.nodup_cons] at hids
    by_cases hak : a.id = k
    · have htail : l.countP (fun hb => decide (hb.id = k) && X hb) = 0 := by
        rw [List.countP_eq_zero]
        intro b hb
        have : b.id ≠ k := fun hbk => hids.1 (by
          rw [hak, ← hbk]; exact List.mem_map_of_mem Habit.id hb)
        simp [this]
      have hany : l.any (fun hb => decide (hb.id = k) && X hb) = false := by
        rw [List.any_eq_false]
        intro b hb
        have : b.id ≠ k := fun hbk => hids.1 (by
          rw [hak, ← hbk]; exact List.mem_map_of_mem Habit.id hb)
        simp [this]
      cases hXa : X a <;>
        simp [List.countP_cons, List.any_cons, hak, hXa, htail, hany]
    · simp only [List.countP_cons, List.any_cons, hak]
      simp [ih hids.2, hak]

theorem countP_congr_beq {α : Type} {l : List α} {p q : α → Bool}
    (h : ∀ x ∈ l, p x = q x) : l.countP p = l.countP q :=
  List.countP_congr (fun x hx => by rw [h x hx])

theorem countP_join {ρ : Type} (rows : List ρ) (hs : List Habit) (key : ρ → String)
    (P : ρ → Habit → Bool) (hids : (hs.map Habit.id).Nodup) :
    ((rows.flatMap (fun r =>
        (hs.filter (fun h => decide (h.id = key r))).map (fun h => (r, h)))).countP
      (fun p => P p.1 p.2))
    = rows.countP (fun r => hs.any (fun h => decide (h.id = key r) && P r h)) := by
  induction rows with
  | nil => simp
  | cons r rows ih =>
    rw [List.flatMap_cons, List.countP_append, ih, List.countP_map]
    have hhead : ((hs.filter (fun h => decide (h.id = key r))).countP
        ((fun p => P p.1 p.2) ∘ fun h => (r, h)))
        = hs.countP (fun h => decide (h.id = key r) && P r h) := by
      rw [List.countP_filter]
      exact List.countP_congr (fun h _ => by
        simp only [Function.comp]
        cases P r h <;> simp)
    rw [hhead, countP_key_unique hs (key r) (P r) hids, List.countP_cons]
    omega

theorem countP_exchange {ρ : Type} (rows : List ρ) (hs : List Habit) (key : ρ → String)
    (w : ρ → Bool) (Q : Habit → Bool) (hids : (hs.map Habit.id).Nodup)
    (hkeys : ((rows.filter w).map key).Nodup) :
    rows.countP (fun r => w r && hs.any (fun h => decide (h.id = key r) && Q h))
    = hs.countP (fun h => Q h && rows.any (fun r => decide (key r = h.id) && w r)) := by
  induction rows with
  | nil => simp
  | cons r rows ih =>
    by_cases hw : w r = true
    · rw [List.filter_cons_of_pos hw, List.map_cons, List.nodup_cons] at hkeys
      rw [List.countP_cons, ih hkeys.2]
      have hsplit : ∀ h ∈ hs,
          (Q h && (r :: rows).any (fun r' => decide (key r' = h.id) && w r'))
          = ((decide (h.id = key r) && Q h) ||
             (Q h && rows.any (fun r' => decide (key r' = h.id) && w r'))) := by
        intro h _
        have hcomm : decide (key r = h.id) = decide (h.id = key r) :=
          decide_eq_decide.mpr eq_comm
        simp only [List.any_cons, hw, Bool.and_true, hcomm]
        cases Q h <;> cases decide (h.id = key r) <;>
          cases rows.any (fun r' => decide (key r' = h.id) && w r') <;> simp
      rw [countP_congr_beq hsplit,
        countP_or_disjoint hs _ _ (by
          intro h _ hb
          rcases hb with ⟨hb1, hb2⟩
          simp only [Bool.and_eq_true, decide_eq_true_eq, List.any_eq_true] at hb1 hb2
          rcases hb2.2 with ⟨r', hr', hkr', hwr'⟩
          exact hkeys.1 (by
            have hrr : key r' = key r := by rw [hkr', hb1.1]
            rw [← hrr]
            exact List.mem_map_of_mem key (List.mem_filter.2 ⟨hr', hwr'⟩))),
        countP_key_unique hs (key r) Q hids, hw]
      simp only [Bool.true_and]
      omega
    · have hw' : w r = false := by simpa using hw
      rw [List.filter_cons_of_neg (by simp [hw'])] at hkeys
      rw [List.countP_cons, ih hkeys]
      have hdrop : ∀ h ∈ hs,
          (Q h && (r :: rows).any (fun r' => decide (key r' = h.id) && w r'))
          = (Q h && rows.any (fun r' => decide (key r' = h.id) && w r')) := by
        intro h _
        simp [List.any_cons, hw']
      rw [countP_congr_beq hdrop]
      simp [hw']

theorem countP_le_exchange {ρ : Type} (rows : List ρ) (hs : List Habit) (key : ρ → String)
    (w : ρ → Bool) (Q : Habit → Bool) (hids : (hs.map Habit.id).Nodup) :
    hs.countP (fun h => Q h && rows.any (fun r => decide (key r = h.id) && w r))
    ≤ rows.countP (fun r => w r && hs.any (fun h => decide (h.id = key r) && Q h)) := by
  induction rows with
  | nil => simp
  | cons r rows ih =>
    by_cases hw : w r = true
    · have hsplit : ∀ h ∈ hs,
          (Q h && (r :: rows).any (fun r' => decide (key r' = h.id) && w r'))
          = ((decide (h.id = key r) && Q h) ||
             (Q h && rows.any (fun r' => decide (key r' = h.id) && w r'))) := by
        intro h _
        have hcomm : decide (key r = h.id) = decide (h.id = key r) :=
          decide_eq_decide.mpr eq_comm
        simp only [List.any_cons, hw, Bool.and_true, hcomm]
        cases Q h <;> cases decide (h.id = key r) <;>
          cases rows.any (fun r' => decide (key r' = h.id) && w r') <;> simp
      rw [countP_congr_beq hsplit]
      calc hs.countP (fun h => (decide (h.id = key r) && Q h) ||
              (Q h && rows.any (fun r' => decide (key r' = h.id) && w r')))
          ≤ hs.countP (fun h => decide (h.id = key r) && Q h) +
              hs.countP (fun h => Q h && rows.any (fun r' => decide (key r' = h.id) && w r')) :=
            countP_or_le hs _ _
        _ ≤ (if hs.any (fun h => decide (h.id = key r) && Q h) then 1 else 0) +
              rows.countP (fun r' => w r' && hs.any (fun h => decide (h.id = key r') && Q h)) := by
            rw [countP_key_unique hs (key r) Q hids]
            omega
        _ ≤ List.countP (fun r' => w r' && hs.any (fun h => decide (h.id = key r') && Q h))
              (r :: rows) := by
            rw [List.countP_cons, hw]
            simp only [Bool.true_and]
            omega
    · have hw' : w r = false := by simpa using hw
      have hdrop : ∀ h ∈ hs,
          (Q h && (r :: rows).any (fun r' => decide (key r' = h.id) && w r'))
          = (Q h && rows.any (fun r' => decide (key r' = h.id) && w r')) := by
        intro h _
        simp [List.any_cons, hw']
      rw [countP_congr_beq hdrop, List.countP_cons]
      simp only [hw', Bool.false_and]
      omega

theorem filtered_key_nodup {ρ κ : Type} [DecidableEq κ] (l : List ρ) (key : ρ → String)
    (sel : ρ → κ) (v : κ) (hp : (l.map (fun r => (sel r, key r))).Nodup) :
    ((l.filter (fun r => decide (sel r = v))).map key).Nodup := by
  have hsub : ((l.filter (fun r => decide (sel r = v))).map (fun r => (sel r, key r))).Nodup :=
    List.Nodup.sublist ((List.filter_sublist l).map (fun r => (sel r, key r))) hp
  have hfl : (l.filter (fun r => decide (sel r = v))).Nodup :=
    List.Nodup.of_map _ hsub
  refine List.Nodup.map_on ?_ hfl
  intro x hx y hy hxy
  have hxv : sel x = v := by simpa using (List.mem_filter.1 hx).2
  have hyv : sel y = v := by simpa using (List.mem_filter.1 hy).2
  exact List.inj_on_of_nodup_map hsub hx hy (by rw [hxv, hyv, hxy])

theorem find_email_aux (l : List User) (u : User) (hn : (l.map User.email).Nodup)
    (hu : u ∈ l) : l.find? (fun x => decide (x.email = u.email)) = some u := by
  induction l with
  | nil => cases hu
  | cons v l ih =>
    simp only [List.map_cons, List.nodup_cons] at hn
    rcases List.mem_cons.1 hu with rfl | hul
    · exact List.find?_cons_of_pos l (by simp)
    · have hne : v.email ≠ u.email := fun he =>
        hn.1 (he ▸ List.mem_map_of_mem User.email hul)
      rw [List.find?_cons_of_neg l (by simp [hne])]
      exact ih hn.2 hul

theorem findUserByEmail_mem {db : DB} {u : User}
    (hn : (db.users.map User.email).Nodup) (hu : u ∈ db.users) :
    findUserByEmail db u.email = some u :=
  find_email_aux db.users u hn hu

/-! ### Characterization of the toggle operation -/

theorem toggleCore_days (db : DB) (day : Day) (id fdh : String) :
    (toggleCore db day id fdh).days = db.days := by
  unfold toggleCore
  cases db.dayHabits.find? (fun dh => decide (dh.day_id = day.id ∧ dh.habit_id = id)) <;> rfl

theorem toggleCore_dayHabits_found {db : DB} {day : Day} {id fdh : String} {dh0 : DayHabit}
    (h : db.dayHabits.find? (fun dh => decide (dh.day_id = day.id ∧ dh.habit_id = id)) = some dh0) :
    (toggleCore db day id fdh).dayHabits =
      db.dayHabits.filter (fun x => decide (x.id ≠ dh0.id)) := by
  unfold toggleCore
  rw [h]

theorem toggleCore_dayHabits_none {db : DB} {day : Day} {id fdh : String}
    (h : db.dayHabits.find? (fun dh => decide (dh.day_id = day.id ∧ dh.habit_id = id)) = none) :
    (toggleCore db day id fdh).dayHabits =
      db.dayHabits ++ [{ id := fdh, day_id := day.id, habit_id := id }] := by
  unfold toggleCore
  rw [h]

theorem toggleHabit_eq_found {db : DB} {id : String} {now : Int} {fd fdh : String} {d0 : Day}
    (h : db.days.find? (fun d => decide (d.date = dayStart now)) = some d0) :
    toggleHabit db id now fd fdh = toggleCore db d0 id fdh := by
  simp only [toggleHabit, h]

theorem toggleHabit_eq_none {db : DB} {id : String} {now : Int} {fd fdh : String}
    (h : db.days.find? (fun d => decide (d.date = dayStart now)) = none) :
    toggleHabit db id now fd fdh =
      toggleCore { db with days := db.days ++ [{ id := fd, date := dayStart now }] }
        { id := fd, date := dayStart now } id fdh := by
  simp only [toggleHabit, h]

theorem find?_pair_of_no_dayid {l : List DayHabit} {did hid : String}
    (h : did ∉ l.map DayHabit.day_id) :
    l.find? (fun dh => decide (dh.day_id = did ∧ dh.habit_id = hid)) = none := by
  rw [List.find?_eq_none]
  intro x hx
  simp only [decide_eq_true_eq, not_and]
  intro hxd hxh
  exact h (hxd ▸ List.mem_map_of_mem DayHabit.day_id hx)

theorem any_pair_of_no_dayid {l : List DayHabit} {did hid : String}
    (h : did ∉ l.map DayHabit.day_id) :
    l.any (fun dh => decide (dh.day_id = did ∧ dh.habit_id = hid)) = false := by
  rw [List.any_eq_false]
  intro x hx
  simp only [decide_eq_true_eq, not_and]
  intro hxd hxh
  exact h (hxd ▸ List.mem_map_of_mem DayHabit.day_id hx)

theorem any_pair_of_find?_none {l : List DayHabit} {did hid : String}
    (h : l.find? (fun dh => decide (dh.day_id = did ∧ dh.habit_id = hid)) = none) :
    l.any (fun dh => decide (dh.day_id = did ∧ dh.habit_id = hid)) = false := by
  rw [List.any_eq_false]
  exact List.find?_eq_none.1 h

theorem filter_id_eq_self {l : List DayHabit} {i : String}
    (h : i ∉ l.map DayHabit.id) :
    l.filter (fun x => decide (x.id ≠ i)) = l := by
  rw [List.filter_eq_self]
  intro x hx
  simp only [decide_eq_true_eq]
  exact fun he => h (he ▸ List.mem_map_of_mem DayHabit.id hx)

theorem mem_filter_erase_iff {l : List DayHabit} (hids : (l.map DayHabit.id).Nodup)
    {dh0 : DayHabit} (h0 : dh0 ∈ l) (x : DayHabit) :
    x ∈ l.filter (fun y => decide (y.id ≠ dh0.id)) ↔ (x ∈ l ∧ x ≠ dh0) := by
  rw [List.mem_filter]
  simp only [decide_eq_true_eq]
  constructor
  · rintro ⟨hx, hne⟩
    exact ⟨hx, fun he => hne (by rw [he])⟩
  · rintro ⟨hx, hne⟩
    exact ⟨hx, fun hid => hne (List.inj_on_of_nodup_map hids hx h0 hid)⟩

theorem find?_day_date {l : List Day} {t : Int} {d0 : Day}
    (h : l.find? (fun d => decide (d.date = t)) = some d0) : d0.date = t := by
  have hp := List.find?_some h
  simpa using hp

theorem find?_pair_eq {l : List DayHabit} {did hid : String} {dh0 : DayHabit}
    (h : l.find? (fun dh => decide (dh.day_id = did ∧ dh.habit_id = hid)) = some dh0) :
    dh0.day_id = did ∧ dh0.habit_id = hid := by
  have hp := List.find?_some h
  simpa using hp

theorem toggleHabit_today_mem (db : DB) (id : String) (now : Int) (fd fdh : String) :
    ∃ d ∈ (toggleHabit db id now fd fdh).days, d.date = dayStart now := by
  cases hr : db.days.find? (fun d => decide (d.date = dayStart now)) with
  | some d0 =>
    rw [toggleHabit_eq_found hr, toggleCore_days]
    exact ⟨d0, List.mem_of_find?_eq_some hr, find?_day_date hr⟩
  | none =>
    rw [toggleHabit_eq_none hr, toggleCore_days]
    exact ⟨{ id := fd, date := dayStart now }, by simp, rfl⟩

theorem stepOp_days_mono (db : DB) (op : Op) :
    ∀ d ∈ db.days, d ∈ (stepOp db op).days := by
  intro d hd
  cases op with
  | toggle id now =>
    simp only [stepOp]
    cases hr : db.days.find? (fun x => decide (x.date = dayStart now)) with
    | some d0 => rw [toggleHabit_eq_found hr, toggleCore_days]; exact hd
    | none =>
      rw [toggleHabit_eq_none hr, toggleCore_days]
      exact List.mem_append_left _ hd
  | createHabit title weekDays email now =>
    simp only [stepOp]
    unfold createHabit
    by_cases hv : validWeekDays weekDays = true <;>
      by_cases hn : weekDays.Nodup <;> simp [hv, hn] <;> exact hd
  | addUser googleId name email avatarUrl =>
    simp only [stepOp]
    cases hfind : db.users.find? (fun u => decide (u.googleId = googleId)) with
    | some u => exact hd
    | none =>
      by_cases he : db.users.any (fun u => decide (u.email = email)) = true <;>
        simp [he] <;> exact hd

theorem stepOp_date_iff (db : DB) (op : Op) (t : Int) :
    (∃ d ∈ (stepOp db op).days, d.date = t) ↔
      ((∃ d ∈ db.days, d.date = t) ∨ opTogglesDate t op) := by
  cases op with
  | toggle id now =>
    simp only [stepOp, opTogglesDate]
    cases hr : db.days.find? (fun x => decide (x.date = dayStart now)) with
    | some d0 =>
      rw [toggleHabit_eq_found hr, toggleCore_days]
      constructor
      · exact fun h => Or.inl h
      · rintro (h | h)
        · exact h
        · exact ⟨d0, List.mem_of_find?_eq_some hr, by rw [find?_day_date hr]; exact h⟩
    | none =>
      rw [toggleHabit_eq_none hr, toggleCore_days]
      constructor
      · rintro ⟨d, hd, hdt⟩
        rcases List.mem_append.1 hd with hd | hd
        · exact Or.inl ⟨d, hd, hdt⟩
        · simp only [List.mem_singleton] at hd
          subst hd
          exact Or.inr hdt
      · rintro (⟨d, hd, hdt⟩ | h)
        · exact ⟨d, List.mem_append_left _ hd, hdt⟩
        · exact ⟨{ id := genId db.ctr, date := dayStart now }, by simp, h⟩
  | createHabit title weekDays email now =>
    have hdays : (stepOp db (Op.createHabit title weekDays email now)).days = db.days := by
      simp only [stepOp]
      unfold createHabit
      by_cases hv : validWeekDays weekDays = true <;>
        by_cases hn : weekDays.Nodup <;> simp [hv, hn]
    rw [hdays]
    simp [opTogglesDate]
  | addUser googleId name email avatarUrl =>
    have hdays : (stepOp db (Op.addUser googleId name email avatarUrl)).days = db.days := by
      simp only [stepOp]
      cases hfind : db.users.find? (fun u => decide (u.googleId = googleId)) with
      | some u => rfl
      | none =>
        by_cases he : db.users.any (fun u => decide (u.email = email)) = true <;> simp [he]
    rw [hdays]
    simp [opTogglesDate]

theorem runOps_aux (ops : List Op) :
    ∀ (db : DB) (t : Int),
      (∃ d ∈ (ops.foldl stepOp db).days, d.date = t) ↔
        ((∃ d ∈ db.days, d.date = t) ∨ ∃ op ∈ ops, opTogglesDate t op) := by
  induction ops with
  | nil => intro db t; simp
  | cons op ops ih =>
    intro db t
    rw [List.foldl_cons, ih (stepOp db op) t, stepOp_date_iff]
    constructor
    · rintro ((h | h) | ⟨op', hop', h⟩)
      · exact Or.inl h
      · exact Or.inr ⟨op, List.mem_cons_self op ops, h⟩
      · exact Or.inr ⟨op', List.mem_cons_of_mem op hop', h⟩
    · rintro (h | ⟨op', hop', h⟩)
      · exact Or.inl (Or.inl h)
      · rcases List.mem_cons.1 hop' with rfl | hop'
        · exact Or.inl (Or.inr h)
        · exact Or.inr ⟨op', hop', h⟩

theorem completedToday_eq (db : DB) (id : String) (now : Int) :
    completedToday db id now =
      match db.days.find? (fun d => decide (d.date = dayStart now)) with
      | none => false
      | some d => db.dayHabits.any (fun dh =>
          decide (dh.day_id = d.id ∧ dh.habit_id = id)) := rfl

/-- C3: For every ledger state and every habit id, toggling the habit
twice in succession on the same day returns the DayHabit ledger to its
state before the first toggle: the (day, habit) completion record is
absent iff it was absent initially.  The hypotheses are the primary-key
and unique-constraint invariants of the datastore plus freshness of the
ids generated for the first call. -/
theorem C3_double_toggle_restores (db : DB) (id : String) (now : Int)
    (fd1 fdh1 fd2 fdh2 : String)
    (hids : (db.dayHabits.map DayHabit.id).Nodup)
    (hpairs : (db.dayHabits.map (fun dh => (dh.day_id, dh.habit_id))).Nodup)
    (hfd1 : fd1 ∉ db.dayHabits.map DayHabit.day_id)
    (hfdh1 : fdh1 ∉ db.dayHabits.map DayHabit.id) :
    completedToday (toggleHabit (toggleHabit db id now fd1 fdh1) id now fd2 fdh2) id now
      = completedToday db id now := by
  cases hr : db.days.find? (fun d => decide (d.date = dayStart now)) with
  | none =>
    have hf1 : db.dayHabits.find?
        (fun dh => decide (dh.day_id = fd1 ∧ dh.habit_id = id)) = none :=
      find?_pair_of_no_dayid hfd1
    have e1 : toggleHabit db id now fd1 fdh1 =
        { db with days := db.days ++ [({ id := fd1, date := dayStart now } : Day)],
                  dayHabits := db.dayHabits ++
                    [({ id := fdh1, day_id := fd1, habit_id := id } : DayHabit)] } := by
      rw [toggleHabit_eq_none hr]
      unfold toggleCore
      try dsimp only
      rw [hf1]
    have hdays1 := congrArg DB.days e1
    have hdh1 := congrArg DB.dayHabits e1
    have hfind2 : (toggleHabit db id now fd1 fdh1).days.find?
        (fun d => decide (d.date = dayStart now)) =
        some ({ id := fd1, date := dayStart now } : Day) := by
      rw [hdays1, List.find?_append, hr]
      simp
    have hf2 : (toggleHabit db id now fd1 fdh1).dayHabits.find?
        (fun dh => decide (dh.day_id = fd1 ∧ dh.habit_id = id)) =
        some ({ id := fdh1, day_id := fd1, habit_id := id } : DayHabit) := by
      rw [hdh1, List.find?_append, hf1]
      simp
    rw [toggleHabit_eq_found hfind2]
    unfold toggleCore
    try dsimp only
    rw [hf2]
    try dsimp only
    rw [completedToday_eq, completedToday_eq]
    try dsimp only
    rw [hfind2, hr]
    try dsimp only
    rw [hdh1, List.filter_append, filter_id_eq_self hfdh1]
    simp
    intro x hx hxd
    exact fun hxh => hfd1 (hxd ▸ List.mem_map_of_mem DayHabit.day_id hx)
  | some d0 =>
    cases hs : db.dayHabits.find?
        (fun dh => decide (dh.day_id = d0.id ∧ dh.habit_id = id)) with
    | some dh0 =>
      have hdh0mem : dh0 ∈ db.dayHabits := List.mem_of_find?_eq_some hs
      have hdh0p := find?_pair_eq hs
      have e1 : toggleHabit db id now fd1 fdh1 =
          { db with dayHabits := db.dayHabits.filter (fun x => decide (x.id ≠ dh0.id)) } := by
        rw [toggleHabit_eq_found hr]
        unfold toggleCore
        try dsimp only
        rw [hs]
      have hdays1 := congrArg DB.days e1
      have hdh1 := congrArg DB.dayHabits e1
      have hfind2 : (toggleHabit db id now fd1 fdh1).days.find?
          (fun d => decide (d.date = dayStart now)) = some d0 := by
        rw [hdays1]
        exact hr
      have hf2 : (toggleHabit db id now fd1 fdh1).dayHabits.find?
          (fun dh => decide (dh.day_id = d0.id ∧ dh.habit_id = id)) = none := by
        rw [hdh1, List.find?_eq_none]
        intro x hx
        have hx' := (mem_filter_erase_iff hids hdh0mem x).1 hx
        simp only [decide_eq_true_eq, not_and]
        intro hxd hxh
        exact hx'.2 (List.inj_on_of_nodup_map hpairs hx'.1 hdh0mem
          (by rw [hxd, hxh, hdh0p.1, hdh0p.2]))
      rw [toggleHabit_eq_found hfind2]
      unfold toggleCore
      try dsimp only
      rw [hf2]
      try dsimp only
      rw [completedToday_eq, completedToday_eq]
      try dsimp only
      rw [hfind2, hr]
      try dsimp only
      have hL : ((toggleHabit db id now fd1 fdh1).dayHabits ++
          [({ id := fdh2, day_id := d0.id, habit_id := id } : DayHabit)]).any
            (fun dh => decide (dh.day_id = d0.id ∧ dh.habit_id = id)) = true := by
        simp
      have hR : db.dayHabits.any
          (fun dh => decide (dh.day_id = d0.id ∧ dh.habit_id = id)) = true :=
        List.any_eq_true.2 ⟨dh0, hdh0mem, decide_eq_true hdh0p⟩
      rw [hL, hR]
    | none =>
      have e1 : toggleHabit db id now fd1 fdh1 =
          { db with dayHabits := db.dayHabits ++
              [({ id := fdh1, day_id := d0.id, habit_id := id } : DayHabit)] } := by
        rw [toggleHabit_eq_found hr]
        unfold toggleCore
        try dsimp only
        rw [hs]
      have hdays1 := congrArg DB.days e1
      have hdh1 := congrArg DB.dayHabits e1
      have hfind2 : (toggleHabit db id now fd1 fdh1).days.find?
          (fun d => decide (d.date = dayStart now)) = some d0 := by
        rw [hdays1]
        exact hr
      have hf2 : (toggleHabit db id now fd1 fdh1).dayHabits.find?
          (fun dh => decide (dh.day_id = d0.id ∧ dh.habit_id = id)) =
          some ({ id := fdh1, day_id := d0.id, habit_id := id } : DayHabit) := by
        rw [hdh1, List.find?_append, hs]
        simp
      rw [toggleHabit_eq_found hfind2]
      unfold toggleCore
      try dsimp only
      rw [hf2]
      try dsimp only
      rw [completedToday_eq, completedToday_eq]
      try dsimp only
      rw [hfind2, hr]
      try dsimp only
      rw [hdh1, List.filter_append, filter_id_eq_self hfdh1]
      have hnone := any_pair_of_find?_none hs
      simp [hnone]

/-- C4: toggleHabitCompletion always operates on the current date (start of
day in the reference timezone): it finds or creates the Day row for
today, then deletes the (today, habitId) DayHabit record if one exists
and otherwise creates it; ledger entries of every other day are
untouched. -/
theorem C4_toggle_targets_today (db : DB) (id : String) (now : Int) (fd fdh : String)
    (hids : (db.dayHabits.map DayHabit.id).Nodup)
    (hpairs : (db.dayHabits.map (fun dh => (dh.day_id, dh.habit_id))).Nodup)
    (hfd : fd ∉ db.dayHabits.map DayHabit.day_id) :
    ∃ d : Day,
      d ∈ (toggleHabit db id now fd fdh).days ∧ d.date = dayStart now ∧
      ((toggleHabit db id now fd fdh).days = db.days ∨
        (toggleHabit db id now fd fdh).days =
          db.days ++ [({ id := fd, date := dayStart now } : Day)]) ∧
      ((∃ dh ∈ db.dayHabits, dh.day_id = d.id ∧ dh.habit_id = id) →
        ∀ dh : DayHabit, dh ∈ (toggleHabit db id now fd fdh).dayHabits ↔
          (dh ∈ db.dayHabits ∧ ¬(dh.day_id = d.id ∧ dh.habit_id = id))) ∧
      ((¬ ∃ dh ∈ db.dayHabits, dh.day_id = d.id ∧ dh.habit_id = id) →
        (toggleHabit db id now fd fdh).dayHabits =
          db.dayHabits ++ [({ id := fdh, day_id := d.id, habit_id := id } : DayHabit)]) ∧
      (∀ dh : DayHabit, dh.day_id ≠ d.id →
        (dh ∈ (toggleHabit db id now fd fdh).dayHabits ↔ dh ∈ db.dayHabits)) := by
  cases hr : db.days.find? (fun d => decide (d.date = dayStart now)) with
  | some d0 =>
    have e0 : toggleHabit db id now fd fdh = toggleCore db d0 id fdh :=
      toggleHabit_eq_found hr
    refine ⟨d0, ?_, find?_day_date hr, ?_, ?_, ?_, ?_⟩
    · rw [e0, toggleCore_days]
      exact List.mem_of_find?_eq_some hr
    · left
      rw [e0, toggleCore_days]
    · intro hex dh
      cases hs : db.dayHabits.find?
          (fun x => decide (x.day_id = d0.id ∧ x.habit_id = id)) with
      | none =>
        exfalso
        rcases hex with ⟨dh', hdh', hp1, hp2⟩
        exact (by simpa using List.find?_eq_none.1 hs dh' hdh' :
          ¬(dh'.day_id = d0.id ∧ dh'.habit_id = id)) ⟨hp1, hp2⟩
      | some dh0 =>
        have hdh0mem := List.mem_of_find?_eq_some hs
        have hdh0p := find?_pair_eq hs
        rw [e0, toggleCore_dayHabits_found hs, mem_filter_erase_iff hids hdh0mem]
        constructor
        · rintro ⟨hmem, hne⟩
          refine ⟨hmem, fun hp => hne ?_⟩
          exact List.inj_on_of_nodup_map hpairs hmem hdh0mem
            (by rw [hp.1, hp.2, hdh0p.1, hdh0p.2])
        · rintro ⟨hmem, hnp⟩
          refine ⟨hmem, fun he => hnp ?_⟩
          rw [he]
          exact ⟨hdh0p.1, hdh0p.2⟩
    · intro hnex
      cases hs : db.dayHabits.find?
          (fun x => decide (x.day_id = d0.id ∧ x.habit_id = id)) with
      | some dh0 =>
        exact absurd ⟨dh0, List.mem_of_find?_eq_some hs,
          (find?_pair_eq hs).1, (find?_pair_eq hs).2⟩ hnex
      | none =>
        rw [e0, toggleCore_dayHabits_none hs]
    · intro dh hne
      cases hs : db.dayHabits.find?
          (fun x => decide (x.day_id = d0.id ∧ x.habit_id = id)) with
      | some dh0 =>
        have hdh0mem := List.mem_of_find?_eq_some hs
        have hdh0p := find?_pair_eq hs
        rw [e0, toggleCore_dayHabits_found hs, mem_filter_erase_iff hids hdh0mem]
        constructor
        · exact fun h => h.1
        · exact fun h => ⟨h, fun he => hne (by rw [he, hdh0p.1])⟩
      | none =>
        rw [e0, toggleCore_dayHabits_none hs, List.mem_append]
        constructor
        · rintro (h | h)
          · exact h
          · simp only [List.mem_singleton] at h
            subst h
            exact absurd rfl hne
        · exact fun h => Or.inl h
  | none =>
    have e0 : toggleHabit db id now fd fdh =
        toggleCore { db with days := db.days ++ [({ id := fd, date := dayStart now } : Day)] }
          ({ id := fd, date := dayStart now } : Day) id fdh :=
      toggleHabit_eq_none hr
    have hf1 : db.dayHabits.find?
        (fun dh => decide (dh.day_id = fd ∧ dh.habit_id = id)) = none :=
      find?_pair_of_no_dayid hfd
    have ed : (toggleHabit db id now fd fdh).days =
        db.days ++ [({ id := fd, date := dayStart now } : Day)] := by
      rw [e0]
      exact toggleCore_days _ _ _ _
    have e1 : (toggleHabit db id now fd fdh).dayHabits =
        db.dayHabits ++ [({ id := fdh, day_id := fd, habit_id := id } : DayHabit)] := by
      rw [e0]
      exact @toggleCore_dayHabits_none
        { db with days := db.days ++ [({ id := fd, date := dayStart now } : Day)] }
        ({ id := fd, date := dayStart now } : Day) id fdh hf1
    refine ⟨{ id := fd, date := dayStart now }, ?_, rfl, Or.inr ed, ?_, ?_, ?_⟩
    · rw [ed]
      exact List.mem_append_right _ (by simp)
    · intro hex
      exfalso
      rcases hex with ⟨dh', hdh', hp1, hp2⟩
      have hp1' : dh'.day_id = fd := hp1
      exact hfd (hp1' ▸ List.mem_map_of_mem DayHabit.day_id hdh')
    · intro _
      exact e1
    · intro dh hne
      rw [e1, List.mem_append]
      constructor
      · rintro (h | h)
        · exact h
        · simp only [List.mem_singleton] at h
          subst h
          exact absurd rfl hne
      · exact fun h => Or.inl h

/-- C10: a toggle always ensures that the Day row of today exists (even for a habit
id matching no habit - the habits table is never consulted), no operation
of the system ever removes a Day row, and in particular after a double
toggle the Day row of the day is still present. -/
theorem C10_day_rows_persist :
    (∀ (db : DB) (id : String) (now : Int) (fd fdh : String),
        ∃ d ∈ (toggleHabit db id now fd fdh).days, d.date = dayStart now) ∧
    (∀ (db : DB) (op : Op), ∀ d ∈ db.days, d ∈ (stepOp db op).days) ∧
    (∀ (db : DB) (id : String) (now : Int) (fd1 fdh1 fd2 fdh2 : String),
        ∃ d ∈ (toggleHabit (toggleHabit db id now fd1 fdh1) id now fd2 fdh2).days,
          d.date = dayStart now) :=
  ⟨toggleHabit_today_mem,
   stepOp_days_mono,
   fun db id now fd1 fdh1 fd2 fdh2 =>
     toggleHabit_today_mem (toggleHabit db id now fd1 fdh1) id now fd2 fdh2⟩

/-- C9: in every state reachable from the empty datastore, a Day row with
date `t` exists iff some toggle operation was executed whose current day
is `t`; and getDayView on a date with no Day row answers an empty
completedHabits list, not an error. -/
theorem C9_day_iff_toggled :
    (∀ (ops : List Op) (t : Int),
        (∃ d ∈ (runOps ops).days, d.date = t) ↔ ∃ op ∈ ops, opTogglesDate t op) ∧
    (∀ (db : DB) (e : String) (date : Int),
        db.days.find? (fun d => decide (d.date = dayStart date)) = none →
        (getDayView db e date).completedHabits = []) := by
  constructor
  · intro ops t
    unfold runOps
    rw [runOps_aux ops initDB t]
    simp [initDB]
  · intro db e date h
    unfold getDayView
    dsimp only
    rw [h]

/-! ### The summary query -/

theorem not_isEmpty_iff_exists {α : Type} (l : List α) :
    (!l.isEmpty) = true ↔ ∃ x, x ∈ l := by
  cases l <;> simp

theorem bool_and_rotate (a b c : Bool) : ((a && b) && c) = ((a && c) && b) := by
  cases a <;> cases b <;> cases c <;> rfl

theorem mem_dhJoin {db : DB} {p : DayHabit × Habit} :
    p ∈ dhJoin db ↔ p.1 ∈ db.dayHabits ∧ p.2 ∈ db.habits ∧ p.2.id = p.1.habit_id := by
  unfold dhJoin
  rw [List.mem_flatMap]
  constructor
  · rintro ⟨dh, hdh, hp⟩
    rw [List.mem_map] at hp
    rcases hp with ⟨h, hh, he⟩
    rw [List.mem_filter] at hh
    subst he
    exact ⟨hdh, hh.1, of_decide_eq_true hh.2⟩
  · rintro ⟨h1, h2, h3⟩
    exact ⟨p.1, h1, List.mem_map.2 ⟨p.2,
      List.mem_filter.2 ⟨h2, decide_eq_true h3⟩, rfl⟩⟩

theorem dayHasUserCompletion_iff (db : DB) (uid : String) (d : Day) :
    dayHasUserCompletion db uid d = true ↔
      ∃ dh ∈ db.dayHabits, dh.day_id = d.id ∧
        ∃ h ∈ db.habits, h.id = dh.habit_id ∧ h.userId = some uid := by
  unfold dayHasUserCompletion
  rw [not_isEmpty_iff_exists]
  constructor
  · rintro ⟨p, hp⟩
    rw [List.mem_filter] at hp
    have hj := mem_dhJoin.1 hp.1
    have hc := of_decide_eq_true hp.2
    exact ⟨p.1, hj.1, hc.1, p.2, hj.2.1, hj.2.2, hc.2⟩
  · rintro ⟨dh, hdh, hday, h, hh, hid, huid⟩
    exact ⟨(dh, h), List.mem_filter.2
      ⟨mem_dhJoin.2 ⟨hdh, hh, hid⟩, decide_eq_true ⟨hday, huid⟩⟩⟩

theorem summaryCompleted_countP (db : DB) (uid : String) (d : Day)
    (hids : (db.habits.map Habit.id).Nodup) :
    summaryCompleted db uid d =
      db.dayHabits.countP (fun dh => decide (dh.day_id = d.id) &&
        db.habits.any (fun h => decide (h.id = dh.habit_id) &&
          decide (h.userId = some uid))) := by
  unfold summaryCompleted dhJoin
  rw [← List.countP_eq_length_filter]
  refine Eq.trans (countP_join db.dayHabits db.habits DayHabit.habit_id
    (fun dh h => decide (dh.day_id = d.id ∧ h.userId = some uid)) hids) ?_
  apply countP_congr_beq
  intro dh _
  simp only [Bool.decide_and]
  rw [any_congr (fun h _ => Bool.and_left_comm _ _ _), bool_and_any]

theorem summaryAmount_countP (db : DB) (uid : String) (d : Day)
    (hids : (db.habits.map Habit.id).Nodup) :
    summaryAmount db uid d =
      db.habitWeekDays.countP (fun r => decide (r.week_day = sqlWeekDay d.date) &&
        db.habits.any (fun h => decide (h.id = r.habit_id) &&
          (decide (h.created_at ≤ d.date) && decide (h.userId = some uid)))) := by
  unfold summaryAmount hwdJoin
  rw [← List.countP_eq_length_filter]
  refine Eq.trans (countP_join db.habitWeekDays db.habits HabitWeekDay.habit_id
    (fun r h => decide (r.week_day = sqlWeekDay d.date ∧ h.created_at ≤ d.date ∧
      h.userId = some uid)) hids) ?_
  apply countP_congr_beq
  intro r _
  simp only [Bool.decide_and]
  rw [any_congr (fun h _ => Bool.and_left_comm _ _ _), bool_and_any]

theorem summaryCompleted_eq_spec (db : DB) (uid : String) (d : Day)
    (hids : (db.habits.map Habit.id).Nodup) :
    summaryCompleted db uid d =
      (db.dayHabits.filter (fun dh => decide (dh.day_id = d.id) &&
        db.habits.any (fun h => decide (h.id = dh.habit_id ∧
          h.userId = some uid)))).length := by
  rw [summaryCompleted_countP db uid d hids, List.countP_eq_length_filter]
  refine congrArg List.length (List.filter_congr ?_)
  intro dh _
  exact congrArg (fun b => decide (dh.day_id = d.id) && b)
    (any_congr (fun h _ => (Bool.decide_and _ _).symm))

/-- C7: getSummary returns exactly the Day rows having at least one
DayHabit linked to a habit owned by the user (a day with no completion of
this user is absent even if other users completed habits that day), and
each returned row carries completed = the number of the user's DayHabit
records of that day. -/
theorem C7_summary_rows_exact (db : DB) (uid : String)
    (hids : (db.habits.map Habit.id).Nodup)
    (hdayids : (db.days.map Day.id).Nodup) :
    (∀ d ∈ db.days,
      ((∃ dh ∈ db.dayHabits, dh.day_id = d.id ∧
          ∃ h ∈ db.habits, h.id = dh.habit_id ∧ h.userId = some uid) ↔
        ∃ row ∈ getSummary db uid, row.id = d.id)) ∧
    (∀ row ∈ getSummary db uid, ∃ d ∈ db.days,
      row.id = d.id ∧ row.date = d.date ∧
      (∃ dh ∈ db.dayHabits, dh.day_id = d.id ∧
        ∃ h ∈ db.habits, h.id = dh.habit_id ∧ h.userId = some uid) ∧
      row.completed = (db.dayHabits.filter (fun dh => decide (dh.day_id = d.id) &&
        db.habits.any (fun h => decide (h.id = dh.habit_id ∧
          h.userId = some uid)))).length) := by
  constructor
  · intro d hd
    constructor
    · intro hex
      refine ⟨⟨d.id, d.date, summaryCompleted db uid d, summaryAmount db uid d⟩, ?_, rfl⟩
      unfold getSummary
      exact List.mem_map_of_mem _
        (List.mem_filter.2 ⟨hd, (dayHasUserCompletion_iff db uid d).2 hex⟩)
    · rintro ⟨row, hrow, hrid⟩
      unfold getSummary at hrow
      rw [List.mem_map] at hrow
      rcases hrow with ⟨d', hd', he⟩
      rw [List.mem_filter] at hd'
      rw [← he] at hrid
      have hdd' : d' = d := List.inj_on_of_nodup_map hdayids hd'.1 hd hrid
      subst hdd'
      exact (dayHasUserCompletion_iff db uid d').1 hd'.2
  · intro row hrow
    unfold getSummary at hrow
    rw [List.mem_map] at hrow
    rcases hrow with ⟨d, hdf, he⟩
    rw [List.mem_filter] at hdf
    refine ⟨d, hdf.1, ?_, ?_, (dayHasUserCompletion_iff db uid d).1 hdf.2, ?_⟩
    · rw [← he]
    · rw [← he]
    · rw [← he]
      exact summaryCompleted_eq_spec db uid d hids

/-- C6: on a dataset where every completion record points at a habit that
was possible on its day (created on or before the day and scheduled for
the weekday of the day), no summary row has completed greater than amount. -/
theorem C6_completed_le_amount (db : DB) (uid : String)
    (hids : (db.habits.map Habit.id).Nodup)
    (hdhpairs : (db.dayHabits.map (fun dh => (dh.day_id, dh.habit_id))).Nodup)
    (hdd : ∀ d ∈ db.days, isDayStart d.date)
    (hgood : ∀ dh ∈ db.dayHabits, ∀ d ∈ db.days, dh.day_id = d.id →
      ∀ h ∈ db.habits, h.id = dh.habit_id →
        h.created_at ≤ d.date ∧
          ∃ r ∈ db.habitWeekDays, r.habit_id = h.id ∧ r.week_day = weekDayOf d.date) :
    ∀ row ∈ getSummary db uid, row.completed ≤ row.amount := by
  intro row hrow
  unfold getSummary at hrow
  rw [List.mem_map] at hrow
  rcases hrow with ⟨d, hdf, he⟩
  rw [List.mem_filter] at hdf
  have hd := hdf.1
  rw [← he]
  show summaryCompleted db uid d ≤ summaryAmount db uid d
  rw [summaryCompleted_countP db uid d hids, summaryAmount_countP db uid d hids]
  calc db.dayHabits.countP (fun dh => decide (dh.day_id = d.id) &&
        db.habits.any (fun h => decide (h.id = dh.habit_id) && decide (h.userId = some uid)))
      = db.habits.countP (fun h => decide (h.userId = some uid) &&
          db.dayHabits.any (fun dh => decide (dh.habit_id = h.id) &&
            decide (dh.day_id = d.id))) :=
        countP_exchange db.dayHabits db.habits DayHabit.habit_id
          (fun dh => decide (dh.day_id = d.id)) (fun h => decide (h.userId = some uid)) hids
          (filtered_key_nodup db.dayHabits DayHabit.habit_id DayHabit.day_id d.id hdhpairs)
    _ ≤ db.habits.countP (fun h =>
          (decide (h.created_at ≤ d.date) && decide (h.userId = some uid)) &&
          db.habitWeekDays.any (fun r => decide (r.habit_id = h.id) &&
            decide (r.week_day = sqlWeekDay d.date))) := by
        apply List.countP_mono_left
        intro h hh hp
        simp only [Bool.and_eq_true, decide_eq_true_eq, List.any_eq_true] at hp ⊢
        rcases hp with ⟨huid, dh, hdh, hdhid, hdhday⟩
        have hg := hgood dh hdh d hd hdhday h hh hdhid.symm
        rcases hg.2 with ⟨r, hr, hrh, hrw⟩
        exact ⟨⟨hg.1, huid⟩, r, hr, hrh,
          by rw [sqlWeekDay_eq_weekDayOf (hdd d hd)]; exact hrw⟩
    _ ≤ db.habitWeekDays.countP (fun r => decide (r.week_day = sqlWeekDay d.date) &&
          db.habits.any (fun h => decide (h.id = r.habit_id) &&
            (decide (h.created_at ≤ d.date) && decide (h.userId = some uid)))) :=
        countP_le_exchange db.habitWeekDays db.habits HabitWeekDay.habit_id
          (fun r => decide (r.week_day = sqlWeekDay d.date))
          (fun h => decide (h.created_at ≤ d.date) && decide (h.userId = some uid)) hids

/-- C2: the `amount` of every summary row equals the length of the
possibleHabits list that getDayView computes for the same user and the
date of that row - the refinement link between the raw SQL count and the
Prisma query.  The hypotheses are exactly the schema invariants: unique
emails and habit ids, the unique (habit_id, week_day) constraint on
habit_week_days, and Day.date being a start-of-day stamp. -/
theorem C2_amount_matches_day_view (db : DB) (u : User) (row : SummaryRow)
    (hemails : (db.users.map User.email).Nodup) (hu : u ∈ db.users)
    (hids : (db.habits.map Habit.id).Nodup)
    (hwdpairs : (db.habitWeekDays.map (fun r => (r.week_day, r.habit_id))).Nodup)
    (hdd : ∀ d ∈ db.days, isDayStart d.date)
    (hrow : row ∈ getSummary db u.id) :
    row.amount = ((getDayView db u.email row.date).possibleHabits).length := by
  unfold getSummary at hrow
  rw [List.mem_map] at hrow
  rcases hrow with ⟨d, hdf, he⟩
  rw [List.mem_filter] at hdf
  have hd := hdf.1
  rw [← he]
  show summaryAmount db u.id d = ((getDayView db u.email d.date).possibleHabits).length
  have hview : (getDayView db u.email d.date).possibleHabits =
      db.habits.filter (fun h => decide (h.created_at ≤ d.date) &&
        habitHasWeekDay db h.id (weekDayOf (dayStart d.date)) &&
        decide (h.userId = some u.id)) := by
    unfold getDayView
    dsimp only
    rw [findUserByEmail_mem hemails hu]
  have hwk : weekDayOf (dayStart d.date) = sqlWeekDay d.date := by
    rw [weekDayOf_dayStart, sqlWeekDay_eq_weekDayOf (hdd d hd)]
  rw [hview, summaryAmount_countP db u.id d hids, ← List.countP_eq_length_filter]
  refine Eq.trans (countP_exchange db.habitWeekDays db.habits HabitWeekDay.habit_id
    (fun r => decide (r.week_day = sqlWeekDay d.date))
    (fun h => decide (h.created_at ≤ d.date) && decide (h.userId = some u.id)) hids
    (filtered_key_nodup db.habitWeekDays HabitWeekDay.habit_id HabitWeekDay.week_day
      (sqlWeekDay d.date) hwdpairs)) ?_
  apply countP_congr_beq
  intro h _
  rw [show habitHasWeekDay db h.id (weekDayOf (dayStart d.date)) =
      db.habitWeekDays.any (fun r => decide (r.habit_id = h.id) &&
        decide (r.week_day = sqlWeekDay d.date)) from by
    unfold habitHasWeekDay
    rw [hwk]
    exact any_congr (fun r _ => Bool.decide_and _ _)]
  exact (bool_and_rotate _ _ _).symm

/-- C1 (amended): when the userEmail resolves to no user record, the
`userId: user?.id` filter is `undefined` and Prisma drops it, so
getDayView answers normally (no failure) with possibleHabits holding
every habit (any owner) matching the date and weekday predicate, and
completedHabits holding every completion record of the day. -/
theorem C1_missing_user_drops_owner_filter (db : DB) (e : String) (date : Int)
    (h : ∀ u ∈ db.users, u.email ≠ e) :
    (getDayView db e date).possibleHabits =
      db.habits.filter (fun hb => decide (hb.created_at ≤ date) &&
        habitHasWeekDay db hb.id (weekDayOf (dayStart date))) ∧
    (getDayView db e date).completedHabits =
      (match db.days.find? (fun d => decide (d.date = dayStart date)) with
        | none => []
        | some d => (db.dayHabits.filter (fun dh => decide (dh.day_id = d.id))).map
            (fun dh => dh.habit_id)) := by
  have hu : findUserByEmail db e = none := by
    unfold findUserByEmail
    rw [List.find?_eq_none]
    intro u hum
    simp [h u hum]
  unfold getDayView
  dsimp only
  rw [hu]
  constructor
  · exact List.filter_congr (fun hb _ => by rw [Bool.and_true])
  · cases hf : db.days.find? (fun d => decide (d.date = dayStart date)) with
    | none => rfl
    | some d =>
      dsimp only
      exact congrArg _ (List.filter_congr (fun dh _ => by rw [Bool.and_true]))

/-- C1 counterexample: in `ghostDB` the email "ghost@x" matches no user,
yet possibleHabits is not empty - the claim that a non-existent user
yields possibleHabits = [] is false on the code. -/
theorem C1_counterexample :
    findUserByEmail ghostDB "ghost@x" = none ∧
    (getDayView ghostDB "ghost@x" 0).possibleHabits ≠ [] := by
  decide

/-- C5: for an existing user, possibleHabits contains exactly the habits
owned by the user, created on or before the (normalized) date and
scheduled on the weekday of the date; in particular an everyday habit is shown
from its creation day onwards and never before. -/
theorem C5_possible_habits_exact (db : DB) (u : User) (date : Int)
    (hemails : (db.users.map User.email).Nodup) (hu : u ∈ db.users)
    (hcreated : ∀ hb ∈ db.habits, isDayStart hb.created_at) :
    (∀ hb : Habit, hb ∈ (getDayView db u.email date).possibleHabits ↔
      (hb ∈ db.habits ∧ hb.userId = some u.id ∧ hb.created_at ≤ dayStart date ∧
        ∃ r ∈ db.habitWeekDays, r.habit_id = hb.id ∧ r.week_day = weekDayOf date)) ∧
    (∀ hb : Habit, hb ∈ db.habits → hb.userId = some u.id →
      (∀ w : Int, 0 ≤ w → w ≤ 6 →
        ∃ r ∈ db.habitWeekDays, r.habit_id = hb.id ∧ r.week_day = w) →
      ((hb.created_at ≤ date → hb ∈ (getDayView db u.email date).possibleHabits) ∧
       (date < hb.created_at → hb ∉ (getDayView db u.email date).possibleHabits))) := by
  have hview : (getDayView db u.email date).possibleHabits =
      db.habits.filter (fun h => decide (h.created_at ≤ date) &&
        habitHasWeekDay db h.id (weekDayOf (dayStart date)) &&
        decide (h.userId = some u.id)) := by
    unfold getDayView
    dsimp only
    rw [findUserByEmail_mem hemails hu]
  have hchar : ∀ hb : Habit, hb ∈ (getDayView db u.email date).possibleHabits ↔
      (hb ∈ db.habits ∧ hb.userId = some u.id ∧ hb.created_at ≤ dayStart date ∧
        ∃ r ∈ db.habitWeekDays, r.habit_id = hb.id ∧ r.week_day = weekDayOf date) := by
    intro hb
    rw [hview, List.mem_filter]
    unfold habitHasWeekDay
    simp only [Bool.and_eq_true, decide_eq_true_eq, List.any_eq_true]
    constructor
    · rintro ⟨hmem, ⟨⟨hcle, r, hr, hrr⟩, huid⟩⟩
      refine ⟨hmem, huid, (le_dayStart_iff (hcreated hb hmem)).1 hcle, r, hr, hrr.1, ?_⟩
      rw [hrr.2, weekDayOf_dayStart]
    · rintro ⟨hmem, huid, hcle, r, hr, hr1, hr2⟩
      refine ⟨hmem, ⟨⟨(le_dayStart_iff (hcreated hb hmem)).2 hcle, r, hr, hr1, ?_⟩, huid⟩⟩
      rw [hr2, weekDayOf_dayStart]
  refine ⟨hchar, ?_⟩
  intro hb hmem huid hweek
  constructor
  · intro hD
    refine (hchar hb).2 ⟨hmem, huid, (le_dayStart_iff (hcreated hb hmem)).1 hD, ?_⟩
    exact hweek (weekDayOf date) (weekDayOf_range date).1 (weekDayOf_range date).2
  · intro hD hin
    have hc := ((hchar hb).1 hin).2.2.1
    have hle := dayStart_le date
    omega

/-- C8 (amended): an out-of-range weekDays element and a non-UUID habit
id are each rejected by the zod validation before any datastore access.
A duplicated weekDays value, however, passes validation: the request
reaches the datastore and the insert is only then rejected, by the unique
(habit_id, week_day) constraint - a constraint violation rather than a
validation failure - with nothing stored. -/
theorem C8_validation_behavior :
    (∀ (db : DB) (title : String) (ws : List Int) (e : String) (now : Int) (fh : String),
        (∃ w ∈ ws, w < 0 ∨ 6 < w) →
        createHabit db title ws e now fh =
          Except.error "validation: weekDays out of range") ∧
    (∀ (db : DB) (title : String) (ws : List Int) (e : String) (now : Int) (fh : String),
        validWeekDays ws = true → ¬ws.Nodup →
        createHabit db title ws e now fh =
          Except.error "constraint: unique (habit_id, week_day) violated") ∧
    (∀ (db : DB) (id : String) (now : Int) (fd fdh : String),
        isUuid id = false →
        toggleRoute db id now fd fdh =
          Except.error "validation: id must be a uuid") := by
  refine ⟨?_, ?_, ?_⟩
  · intro db title ws e now fh hex
    have hv : validWeekDays ws = false := by
      unfold validWeekDays
      rw [List.all_eq_false]
      rcases hex with ⟨w, hw, hout⟩
      exact ⟨w, hw, by simp; omega⟩
    unfold createHabit
    rw [hv]
    simp
  · intro db title ws e now fh hv hn
    unfold createHabit
    rw [hv]
    simp [hn]
  · intro db id now fd fdh hid
    unfold toggleRoute
    rw [hid]
    simp

/-- C8 counterexample: the weekDays list [3, 3] is not a set of unique
integers, yet the zod validation accepts it - so no validation failure
occurs before the datastore is accessed; the request fails only at the
unique (habit_id, week_day) constraint of the datastore. -/
theorem C8_counterexample :
    validWeekDays [3, 3] = true ∧
    createHabit initDB "Run" [3, 3] "alice@x" 0 "h1" =
      Except.error "constraint: unique (habit_id, week_day) violated" := by
  exact ⟨rfl, rfl⟩

/-! ### Concrete witnesses -/

theorem C1_missing_user_drops_owner_filter_witness :
    (∀ u ∈ ghostDB.users, u.email ≠ "ghost@x") ∧
    ((getDayView ghostDB "ghost@x" 0).possibleHabits =
      ghostDB.habits.filter (fun hb => decide (hb.created_at ≤ 0) &&
        habitHasWeekDay ghostDB hb.id (weekDayOf (dayStart 0))) ∧
     (getDayView ghostDB "ghost@x" 0).completedHabits =
      (match ghostDB.days.find? (fun d => decide (d.date = dayStart 0)) with
        | none => []
        | some d => (ghostDB.dayHabits.filter (fun dh => decide (dh.day_id = d.id))).map
            (fun dh => dh.habit_id))) :=
  ⟨by decide, C1_missing_user_drops_owner_filter ghostDB "ghost@x" 0 (by decide)⟩

theorem C2_amount_matches_day_view_witness :
    (okDB.users.map User.email).Nodup ∧
    ({ id := "u1", googleId := "g1", name := "Alice", email := "alice@x",
       avatarUrl := "a" } : User) ∈ okDB.users ∧
    (okDB.habits.map Habit.id).Nodup ∧
    (okDB.habitWeekDays.map (fun r => (r.week_day, r.habit_id))).Nodup ∧
    (∀ d ∈ okDB.days, isDayStart d.date) ∧
    ({ id := "d1", date := -75600000, completed := 1, amount := 1 } : SummaryRow)
      ∈ getSummary okDB "u1" ∧
    ({ id := "d1", date := -75600000, completed := 1, amount := 1 } : SummaryRow).amount =
      ((getDayView okDB "alice@x"
        ({ id := "d1", date := -75600000, completed := 1, amount := 1 } : SummaryRow).date).possibleHabits).length :=
  ⟨by decide, by decide, by decide, by decide, by decide, by decide,
    C2_amount_matches_day_view okDB
      { id := "u1", googleId := "g1", name := "Alice", email := "alice@x", avatarUrl := "a" }
      { id := "d1", date := -75600000, completed := 1, amount := 1 }
      (by decide) (by decide) (by decide) (by decide) (by decide) (by decide)⟩

theorem C3_double_toggle_restores_witness :
    (okDB.dayHabits.map DayHabit.id).Nodup ∧
    (okDB.dayHabits.map (fun dh => (dh.day_id, dh.habit_id))).Nodup ∧
    "d9" ∉ okDB.dayHabits.map DayHabit.day_id ∧
    "dh9" ∉ okDB.dayHabits.map DayHabit.id ∧
    completedToday (toggleHabit (toggleHabit okDB "h1" 0 "d9" "dh9") "h1" 0 "d8" "dh8") "h1" 0
      = completedToday okDB "h1" 0 :=
  ⟨by decide, by decide, by decide, by decide,
    C3_double_toggle_restores okDB "h1" 0 "d9" "dh9" "d8" "dh8"
      (by decide) (by decide) (by decide) (by decide)⟩

theorem C4_toggle_targets_today_witness :
    (okDB.dayHabits.map DayHabit.id).Nodup ∧
    (okDB.dayHabits.map (fun dh => (dh.day_id, dh.habit_id))).Nodup ∧
    "d9" ∉ okDB.dayHabits.map DayHabit.day_id ∧
    (∃ d : Day,
      d ∈ (toggleHabit okDB "h1" 0 "d9" "dh9").days ∧ d.date = dayStart 0 ∧
      ((toggleHabit okDB "h1" 0 "d9" "dh9").days = okDB.days ∨
        (toggleHabit okDB "h1" 0 "d9" "dh9").days =
          okDB.days ++ [({ id := "d9", date := dayStart 0 } : Day)]) ∧
      ((∃ dh ∈ okDB.dayHabits, dh.day_id = d.id ∧ dh.habit_id = "h1") →
        ∀ dh : DayHabit, dh ∈ (toggleHabit okDB "h1" 0 "d9" "dh9").dayHabits ↔
          (dh ∈ okDB.dayHabits ∧ ¬(dh.day_id = d.id ∧ dh.habit_id = "h1"))) ∧
      ((¬ ∃ dh ∈ okDB.dayHabits, dh.day_id = d.id ∧ dh.habit_id = "h1") →
        (toggleHabit okDB "h1" 0 "d9" "dh9").dayHabits =
          okDB.dayHabits ++ [({ id := "dh9", day_id := d.id, habit_id := "h1" } : DayHabit)]) ∧
      (∀ dh : DayHabit, dh.day_id ≠ d.id →
        (dh ∈ (toggleHabit okDB "h1" 0 "d9" "dh9").dayHabits ↔ dh ∈ okDB.dayHabits))) :=
  ⟨by decide, by decide, by decide,
    C4_toggle_targets_today okDB "h1" 0 "d9" "dh9" (by decide) (by decide) (by decide)⟩

theorem C5_possible_habits_exact_witness :
    (okDB.users.map User.email).Nodup ∧
    ({ id := "u1", googleId := "g1", name := "Alice", email := "alice@x",
       avatarUrl := "a" } : User) ∈ okDB.users ∧
    (∀ hb ∈ okDB.habits, isDayStart hb.created_at) ∧
    ((∀ hb : Habit, hb ∈ (getDayView okDB "alice@x" (-75600000)).possibleHabits ↔
      (hb ∈ okDB.habits ∧ hb.userId = some "u1" ∧
        hb.created_at ≤ dayStart (-75600000) ∧
        ∃ r ∈ okDB.habitWeekDays, r.habit_id = hb.id ∧
          r.week_day = weekDayOf (-75600000))) ∧
    (∀ hb : Habit, hb ∈ okDB.habits → hb.userId = some "u1" →
      (∀ w : Int, 0 ≤ w → w ≤ 6 →
        ∃ r ∈ okDB.habitWeekDays, r.habit_id = hb.id ∧ r.week_day = w) →
      ((hb.created_at ≤ -75600000 →
          hb ∈ (getDayView okDB "alice@x" (-75600000)).possibleHabits) ∧
       (-75600000 < hb.created_at →
          hb ∉ (getDayView okDB "alice@x" (-75600000)).possibleHabits)))) :=
  ⟨by decide, by decide, by decide,
    C5_possible_habits_exact okDB
      { id := "u1", googleId := "g1", name := "Alice", email := "alice@x", avatarUrl := "a" }
      (-75600000) (by decide) (by decide) (by decide)⟩

theorem C6_completed_le_amount_witness :
    (okDB.habits.map Habit.id).Nodup ∧
    (okDB.dayHabits.map (fun dh => (dh.day_id, dh.habit_id))).Nodup ∧
    (∀ d ∈ okDB.days, isDayStart d.date) ∧
    (∀ dh ∈ okDB.dayHabits, ∀ d ∈ okDB.days, dh.day_id = d.id →
      ∀ h ∈ okDB.habits, h.id = dh.habit_id →
        h.created_at ≤ d.date ∧
          ∃ r ∈ okDB.habitWeekDays, r.habit_id = h.id ∧
            r.week_day = weekDayOf d.date) ∧
    (∀ row ∈ getSummary okDB "u1", row.completed ≤ row.amount) :=
  ⟨by decide, by decide, by decide, by decide,
    C6_completed_le_amount okDB "u1" (by decide) (by decide) (by decide) (by decide)⟩

theorem C7_summary_rows_exact_witness :
    (okDB.habits.map Habit.id).Nodup ∧
    (okDB.days.map Day.id).Nodup ∧
    ((∀ d ∈ okDB.days,
      ((∃ dh ∈ okDB.dayHabits, dh.day_id = d.id ∧
          ∃ h ∈ okDB.habits, h.id = dh.habit_id ∧ h.userId = some "u1") ↔
        ∃ row ∈ getSummary okDB "u1", row.id = d.id)) ∧
    (∀ row ∈ getSummary okDB "u1", ∃ d ∈ okDB.days,
      row.id = d.id ∧ row.date = d.date ∧
      (∃ dh ∈ okDB.dayHabits, dh.day_id = d.id ∧
        ∃ h ∈ okDB.habits, h.id = dh.habit_id ∧ h.userId = some "u1") ∧
      row.completed = (okDB.dayHabits.filter (fun dh => decide (dh.day_id = d.id) &&
        okDB.habits.any (fun h => decide (h.id = dh.habit_id ∧
          h.userId = some "u1")))).length)) :=
  ⟨by decide, by decide, C7_summary_rows_exact okDB "u1" (by decide) (by decide)⟩

theorem C8_validation_behavior_witness :
    ((∃ w ∈ ([7] : List Int), w < 0 ∨ 6 < w) ∧
      createHabit initDB "Run" [7] "alice@x" 0 "h1" =
        Except.error "validation: weekDays out of range") ∧
    (validWeekDays [5, 5] = true ∧ ¬([5, 5] : List Int).Nodup ∧
      createHabit initDB "Run" [5, 5] "alice@x" 0 "h1" =
        Except.error "constraint: unique (habit_id, week_day) violated") ∧
    (isUuid "not-a-uuid" = false ∧
      toggleRoute initDB "not-a-uuid" 0 "d9" "dh9" =
        Except.error "validation: id must be a uuid") :=
  ⟨⟨by decide, C8_validation_behavior.1 initDB "Run" [7] "alice@x" 0 "h1" (by decide)⟩,
   ⟨by decide, by decide,
     C8_validation_behavior.2.1 initDB "Run" [5, 5] "alice@x" 0 "h1" (by decide) (by decide)⟩,
   ⟨by decide, C8_validation_behavior.2.2 initDB "not-a-uuid" 0 "d9" "dh9" (by decide)⟩⟩

theorem C9_day_iff_toggled_witness :
    ((∃ d ∈ (runOps [Op.toggle "h1" 0]).days, d.date = dayStart 0) ↔
      ∃ op ∈ [Op.toggle "h1" 0], opTogglesDate (dayStart 0) op) ∧
    (initDB.days.find? (fun d => decide (d.date = dayStart 5)) = none ∧
      (getDayView initDB "e" 5).completedHabits = []) :=
  ⟨C9_day_iff_toggled.1 [Op.toggle "h1" 0] (dayStart 0),
   by decide, C9_day_iff_toggled.2 initDB "e" 5 (by decide)⟩

theorem C10_day_rows_persist_witness :
    (∃ d ∈ (toggleHabit initDB "h1" 0 "d9" "dh9").days, d.date = dayStart 0) ∧
    (({ id := "d1", date := -75600000 } : Day) ∈
      (stepOp okDB (Op.toggle "h1" 0)).days) ∧
    (∃ d ∈ (toggleHabit (toggleHabit initDB "h1" 0 "da" "dha") "h1" 0 "dc" "dhc").days,
      d.date = dayStart 0) :=
  ⟨C10_day_rows_persist.1 initDB "h1" 0 "d9" "dh9",
   C10_day_rows_persist.2.1 okDB (Op.toggle "h1" 0) ⟨"d1", -75600000⟩ (by decide),
   C10_day_rows_persist.2.2 initDB "h1" 0 "da" "dha" "dc" "dhc"⟩
